import Mathlib

/-!
Verification of the avdctl AVD lifecycle manager core.

The Go source is embedded shallowly: byte strings become `List Char`
(one `Char` per byte; all relevant data is ASCII plus the NUL separator
of /proc cmdline files), external-world observations (the adb `devices`
listing, the /proc process table, `getprop` probes, socket-bind probes)
become explicit oracle parameters, and each operation under study becomes
a pure Lean function mirroring the Go control flow.
-/

namespace Avdctl

/-- Byte strings of the Go code, one `Char` per byte. -/
abbrev Str := List Char

/-- Convenience conversion from a Lean string literal to `Str`. -/
def str (s : String) : Str := s.toList

/-- Decimal rendering of an `Int`, as Go `fmt.Sprint`/`%d` produce it. -/
def intStr (i : Int) : Str := (toString i).toList

/-- Go `strings.HasPrefix pre s` (arguments: pattern first). -/
def strHasPre : Str → Str → Bool
  | [], _ => true
  | _ :: _, [] => false
  | c :: p, d :: s => c == d && strHasPre p s

/-- Go `strings.Contains s pat` / `bytes.Contains` (pattern is the first
argument here): `pat` occurs as a contiguous substring of `s`. -/
def strContains (pat : Str) : Str → Bool
  | [] => strHasPre pat []
  | c :: rest => strHasPre pat (c :: rest) || strContains pat rest

/-- Go `strings.Split s sep` for a one-byte separator chosen by the
predicate `p`: split around every separator byte, keeping empty pieces
(`strings.Split` semantics, always at least one piece). -/
def splitOnP (p : Char → Bool) : Str → List Str
  | [] => [[]]
  | c :: rest =>
    if p c then [] :: splitOnP p rest
    else
      match splitOnP p rest with
      | [] => [[c]]
      | l :: ls => (c :: l) :: ls

/-- `strings.Split s "\n"`. -/
def splitNl : Str → List Str := splitOnP (fun c => c == '\n')

/-- The NUL byte separating /proc cmdline arguments. -/
def nulChar : Char := Char.ofNat 0

/-- `bytes.Split b []byte{0}` (NUL-separated /proc cmdline fields). -/
def splitNul : Str → List Str := splitOnP (fun c => c == nulChar)

/-- Go `strings.Join lines "\n"`. -/
def joinNl : List Str → Str
  | [] => []
  | [l] => l
  | l :: l' :: ls => l ++ '\n' :: joinNl (l' :: ls)

/-- The whitespace class used by `strings.Fields` / `strings.TrimSpace`
(ASCII part of `unicode.IsSpace`; the data handled by the tool is ASCII). -/
def isSpaceGo (c : Char) : Bool :=
  c == ' ' || c == '\t' || c == '\n' || c == Char.ofNat 11 || c == Char.ofNat 12 || c == '\r'

/-- Go `strings.Fields`: whitespace-separated tokens, empties dropped. -/
def fields (s : Str) : List Str :=
  (splitOnP isSpaceGo s).filter (fun l => !l.isEmpty)

/-- Go `strings.TrimSpace`. -/
def trimSpace (s : Str) : Str :=
  ((s.dropWhile isSpaceGo).reverse.dropWhile isSpaceGo).reverse

/-- Decimal value of one digit character, `none` for a non-digit. -/
def digitVal (c : Char) : Option Nat :=
  if '0' ≤ c ∧ c ≤ '9' then some (c.toNat - '0'.toNat) else none

/-- Value of a nonempty all-digit string, `none` otherwise. -/
def digitsVal : Str → Option Nat
  | [] => none
  | [c] => digitVal c
  | c :: d :: rest =>
    match digitVal c, digitsVal (d :: rest) with
    | some v, some w => some (v * (10 ^ (d :: rest).length) + w)
    | _, _ => none

/-- Go `strconv.Atoi`: optional sign, then one or more digits
(overflow does not matter at the magnitudes the tool handles). -/
def atoi? (s : Str) : Option Int :=
  match s with
  | [] => none
  | c :: rest =>
    if c = '-' then (digitsVal rest).map (fun n => -(n : Int))
    else if c = '+' then (digitsVal rest).map (fun n => (n : Int))
    else (digitsVal (c :: rest)).map (fun n => (n : Int))

/-- The `port := 0; if n, err := strconv.Atoi(s); err == nil { port = n }`
idiom of the Go code. -/
def atoiOrZero (s : Str) : Int := (atoi? s).getD 0

/-- Scanner of `strings.ReplaceAll` (nonempty pattern): on a leftmost
match emit the replacement and skip the pattern length, else keep one
byte. The fuel argument only bounds the recursion; it never runs out
when it starts at the input length. -/
def replaceAllAux (pat rep : Str) : Nat → Str → Str
  | _, [] => []
  | 0, s => s
  | fuel + 1, c :: rest =>
    if strHasPre pat (c :: rest) then
      rep ++ replaceAllAux pat rep fuel (rest.drop (pat.length - 1))
    else
      c :: replaceAllAux pat rep fuel rest

/-- Go `strings.ReplaceAll s pat rep` for a nonempty pattern: leftmost
nonoverlapping occurrences of `pat` are replaced by `rep`. -/
def replaceAll (pat rep s : Str) : Str := replaceAllAux pat rep s.length s

/-! ## Config sanitizer (internal/avd/ops.go, sanitizeConfigINI) -/

/-- The dropped-line predicate of `sanitizeConfigINI`: lines whose key is
quickboot mode, snapshot presence, any `fastboot.` key, any
`disk.dataPartition.` key, the copy-on-write-userdata key, or any
`firstboot.` key. -/
def dropLine (l : Str) : Bool :=
  strHasPre (str "QuickBoot.mode=") l ||
  strHasPre (str "snapshot.present=") l ||
  strHasPre (str "fastboot.") l ||
  strHasPre (str "disk.dataPartition.") l ||
  strHasPre (str "userdata.useQcow2=") l ||
  strHasPre (str "firstboot.") l

/-- The four canonical lines appended by `sanitizeConfigINI`. -/
def canonLines : List Str :=
  [str "QuickBoot.mode=disabled",
   str "snapshot.present=false",
   str "fastboot.forceColdBoot=yes",
   str "userdata.useQcow2=yes"]

/-- `sanitizeConfigINI` (internal/avd/ops.go:366-385): split on newlines,
drop the lines matched by `dropLine`, append the four canonical lines,
join with newlines. -/
def sanitizeConfigINI (b : Str) : Str :=
  joinNl ((splitNl b).filter (fun l => !dropLine l) ++ canonLines)

/-- The clone-config computation of `CloneFromGolden`
(internal/avd/ops.go:220-226): sanitize, replace every
`userdata.useQcow2=yes` by `userdata.useQcow2=no`, and append a
`userdata.useQcow2=no` line if the key is absent. -/
def cloneFromGoldenConfig (base : Str) : Str :=
  let s := replaceAll (str "userdata.useQcow2=yes") (str "userdata.useQcow2=no")
      (sanitizeConfigINI base)
  if strContains (str "userdata.useQcow2") s then s
  else s ++ str "\nuserdata.useQcow2=no\n"

/-! ## Discovery layer (internal/avd/ops.go, ListRunning and helpers) -/

/-- The `ProcInfo` record returned by discovery (internal/avd/ops.go:826-832). -/
structure ProcInfo where
  serial : Str
  name : Str
  port : Int
  pid : Nat
  booted : Bool
deriving DecidableEq, Repr

/-- Observations of the external world consumed by `ListRunning`:
the raw stdout of `adb devices`, the host process table as
(pid, NUL-separated cmdline) pairs in /proc enumeration order, the exit
status and stdout of `adb -s <serial> shell getprop sys.boot_completed`,
and the result of the `avd name` console query (`GetAVDNameFromSerial`,
whose console-protocol parsing is abstracted into the oracle). -/
structure DiscoveryOracle where
  devicesOut : Str
  procTable : List (Nat × Str)
  getpropOk : Str → Bool
  getpropOut : Str → Str
  consoleAvdName : Str → Str

/-- The token conjunct of `findEmulatorPID`: the cmdline must contain
`qemu-system` or `emulator` (excludes unrelated proxies). -/
def tokenMatch (cl : Str) : Bool :=
  strContains (str "qemu-system") cl || strContains (str "emulator") cl

/-- The `fmt.Sprintf("-port%c%d", 0, port)` pattern of `findEmulatorPID`. -/
def portArgPat (port : Int) : Str := str "-port" ++ nulChar :: intStr port

/-- `findEmulatorPID` (internal/avd/ops.go:916-941): first process whose
cmdline contains the NUL-separated `-port <port>` pair and one of the
tokens `qemu-system` / `emulator`; 0 when none matches. (The
`/proc/<pid>/stat` liveness re-check always succeeds against a snapshot
table.) -/
def findEmulatorPID (tbl : List (Nat × Str)) (port : Int) : Nat :=
  match tbl with
  | [] => 0
  | (pid, cl) :: rest =>
    if strContains (portArgPat port) cl && tokenMatch cl then pid
    else findEmulatorPID rest port

/-- The `-avd <name>` extraction loop of `findEmulatorNameFromPID`:
the part following a `-avd` part, when one exists. -/
def avdArgName : List Str → Str
  | [] => []
  | [_] => []
  | p :: q :: rest => if p = str "-avd" then q else avdArgName (q :: rest)

/-- `findEmulatorNameFromPID` (internal/avd/ops.go:944-961): read the
pid's cmdline, split on NUL, return the argument after `-avd`. -/
def findEmulatorNameFromPID (tbl : List (Nat × Str)) (pid : Nat) : Str :=
  if pid = 0 then []
  else
    match tbl.find? (fun e => e.1 == pid) with
    | some e => avdArgName (splitNul e.2)
    | none => []

/-- Strategy (a) of `ListRunning` (internal/avd/ops.go:848-879), one line
of the `adb devices` output: at least two whitespace fields, first field
with prefix `emulator-`, port parsed from the serial suffix (skip on 0);
name from the console query with cmdline fallback; booted iff the trimmed
getprop output equals "1" (the probe's exit status is ignored here). -/
def deviceLineTuple (o : DiscoveryOracle) (line : Str) : Option ProcInfo :=
  match fields line with
  | serial :: _ :: _ =>
    if strHasPre (str "emulator-") serial then
      let port := atoiOrZero (serial.drop (str "emulator-").length)
      if port = 0 then none
      else
        let rawName := o.consoleAvdName serial
        let pid := findEmulatorPID o.procTable port
        let name := if rawName = [] ∧ 0 < pid then findEmulatorNameFromPID o.procTable pid
          else rawName
        let booted := trimSpace (o.getpropOut serial) == str "1"
        some ⟨serial, name, port, pid, booted⟩
    else none
  | _ => none

/-- The even ports scanned by strategy (b): `for port := 5554; port <= 5800;
port += 2`. -/
def scanPorts : List Int := (List.range 124).map (fun i : Nat => 5554 + 2 * (i : Int))

/-- Strategy (b) of `ListRunning` (internal/avd/ops.go:884-910), for one
even port: skip ports already seen via strategy (a); otherwise synthesize
a tuple when `findEmulatorPID` finds a matching process; booted iff the
getprop probe exits cleanly AND its trimmed output equals "1". -/
def scanTuple (o : DiscoveryOracle) (seen : List Int) (port : Int) : Option ProcInfo :=
  if port ∈ seen then none
  else
    let pid := findEmulatorPID o.procTable port
    if 0 < pid then
      let serial := str "emulator-" ++ intStr port
      let rawName := o.consoleAvdName serial
      let name := if rawName = [] then findEmulatorNameFromPID o.procTable pid else rawName
      let booted := o.getpropOk serial && (trimSpace (o.getpropOut serial) == str "1")
      some ⟨serial, name, port, pid, booted⟩
    else none

/-- Strategy (a) of `ListRunning`: the tuples harvested from the
`adb devices` lines, in order. -/
def devicesTuples (o : DiscoveryOracle) : List ProcInfo :=
  (splitNl o.devicesOut).filterMap (deviceLineTuple o)

/-- `ListRunning` (internal/avd/ops.go:834-913): strategy (a) tuples
followed by strategy (b) tuples for the even ports not seen by (a). -/
def ListRunning (o : DiscoveryOracle) : List ProcInfo :=
  let d := devicesTuples o
  d ++ scanPorts.filterMap (scanTuple o (d.map (fun p => p.port)))

/-! ## Port allocator (internal/avd/ops.go, FindFreeEvenPort / isPortFree) -/

/-- The scan loop of `FindFreeEvenPort` (internal/avd/ops.go:792-805),
instrumented with the list of ports on which a bind was attempted:
while `p < e`, try to bind `p`; on failure move on (one probe); on
success try `p+1`; on failure move on (two probes); on success return
`p`. The fuel argument only bounds the recursion; it never runs out when
it starts at `(e - p).toNat`, since `p` advances by 2 per iteration. -/
def findFreeLoopAux (free : Int → Bool) : Nat → Int → Int → Option Int × List Int
  | 0, _, _ => (none, [])
  | fuel + 1, p, e =>
    if p < e then
      if free p then
        if free (p + 1) then (some p, [p, p + 1])
        else
          let r := findFreeLoopAux free fuel (p + 2) e
          (r.1, p :: (p + 1) :: r.2)
      else
        let r := findFreeLoopAux free fuel (p + 2) e
        (r.1, p :: r.2)
    else (none, [])

/-- `FindFreeEvenPort` (internal/avd/ops.go:788-807): round an odd start
up, then scan even ports below `e`; `none` models the
"no free even port found" error. -/
def FindFreeEvenPort (free : Int → Bool) (s e : Int) : Option Int × List Int :=
  let p := if s % 2 ≠ 0 then s + 1 else s
  findFreeLoopAux free (e - p).toNat p e

/-! ## Emulator supervisor (internal/avd/ops.go, StartEmulatorOnPort) -/

/-- Errors returned by `StartEmulatorOnPort` before any launch. -/
inductive StartErr where
  | oddPort (p : Int)
  | rangeErr (p : Int)
  | portsBusy (p q : Int)
deriving DecidableEq, Repr

/-- Outcome of `StartEmulatorOnPort`: a precondition/collision error, or a
launched child identified by its deterministic serial (the successful
`exec` of the emulator binary is abstracted as always succeeding). -/
inductive StartOutcome where
  | err (e : StartErr)
  | launch (serial : Str)
deriving DecidableEq, Repr

/-- Observable events of `StartEmulatorOnPort` before the launch: socket
probes (`isPortFree`) and the fixed 2-second inter-attempt sleep. -/
inductive StartEv where
  | probe (p : Int)
  | sleep2
deriving DecidableEq, BEq, Repr

/-- One attempt of the port-pair re-probe of `StartEmulatorOnPort`: the
pair is usable when both binds succeed; `port+1` is probed only when the
bind of `port` succeeded (Go `&&` short-circuit). -/
def attemptProbe (free : Nat → Int → Bool) (port : Int) (a : Nat) : Bool × List StartEv :=
  (free a port && free a (port + 1),
   if free a port then [StartEv.probe port, StartEv.probe (port + 1)]
   else [StartEv.probe port])

/-- The retry loop of `StartEmulatorOnPort` (internal/avd/ops.go:670-687),
unrolled for its constant `maxRetries = 3`: attempts 0, 1, 2, with a
fixed 2-second sleep between consecutive attempts; the oracle `free` may
answer differently per attempt. -/
def portRetry (free : Nat → Int → Bool) (port : Int) : Bool × List StartEv :=
  let a0 := attemptProbe free port 0
  if a0.1 then a0
  else
    let a1 := attemptProbe free port 1
    if a1.1 then (true, a0.2 ++ StartEv.sleep2 :: a1.2)
    else
      let a2 := attemptProbe free port 2
      (a2.1, a0.2 ++ StartEv.sleep2 :: a1.2 ++ StartEv.sleep2 :: a2.2)

/-- `StartEmulatorOnPort` (internal/avd/ops.go:648-766) up to the launch:
reject odd ports, then ports outside [5554, 5800]; then run the
port-pair retry loop; on exhaustion return the collision error naming
both ports; otherwise launch and return the serial `emulator-<port>`. -/
def StartEmulatorOnPort (free : Nat → Int → Bool) (port : Int) : StartOutcome × List StartEv :=
  if port % 2 ≠ 0 then (StartOutcome.err (StartErr.oddPort port), [])
  else if port < 5554 ∨ port > 5800 then (StartOutcome.err (StartErr.rangeErr port), [])
  else
    let r := portRetry free port
    if r.1 then (StartOutcome.launch (str "emulator-" ++ intStr port), r.2)
    else (StartOutcome.err (StartErr.portsBusy port (port + 1)), r.2)

/-! ## Stop (internal/avd/ops.go StopBySerial, facade StopByName) -/

/-- Errors of `StopBySerial`. -/
inductive StopErr where
  | invalidSerial
  | stopFailed
deriving DecidableEq, Repr

/-- Kill/signal actions `StopBySerial` can perform. -/
inductive StopAct where
  | consoleKill (serial : Str)
  | sigInt (pid : Nat)
  | sigKill (pid : Nat)
deriving DecidableEq, Repr

/-- World observed by `StopBySerial`: whether `adb emu kill` exits
cleanly, the process table at the first post-kill check and at the
post-SIGINT check, and whether sending the interrupt signal succeeds
(`os.FindProcess` never fails on Unix). -/
structure StopOracle where
  adbKillOk : Bool
  table1 : List (Nat × Str)
  table2 : List (Nat × Str)
  sigIntOk : Bool

/-- `StopBySerial` (internal/avd/ops.go:1078-1140): reject serials without
the `emulator-` prefix; parse the port (0 when unparseable); console kill;
if the process-table scan finds no pid, success; else escalate to SIGINT
and, if still alive, SIGKILL; report failure only when both the console
kill and the signal failed. Returns (error?, actions performed). -/
def StopBySerial (o : StopOracle) (serial : Str) : Option StopErr × List StopAct :=
  if ¬ strHasPre (str "emulator-") serial then (some StopErr.invalidSerial, [])
  else
    let port := atoiOrZero (serial.drop (str "emulator-").length)
    let pid := findEmulatorPID o.table1 port
    if pid = 0 then (none, [StopAct.consoleKill serial])
    else if o.sigIntOk then
      if 0 < findEmulatorPID o.table2 port then
        (none, [StopAct.consoleKill serial, StopAct.sigInt pid, StopAct.sigKill pid])
      else (none, [StopAct.consoleKill serial, StopAct.sigInt pid])
    else if ¬ o.adbKillOk then
      (some StopErr.stopFailed, [StopAct.consoleKill serial, StopAct.sigInt pid])
    else (none, [StopAct.consoleKill serial, StopAct.sigInt pid])

/-- `Manager.StopByName` (facade): look the name up in the discovery
listing; delegate to `StopBySerial` for the first match; success when the
name is absent. -/
def StopByName (o : StopOracle) (procs : List ProcInfo) (name : Str) :
    Option StopErr × List StopAct :=
  match procs.find? (fun p => p.name == name) with
  | some p => StopBySerial o p.serial
  | none => (none, [])

/-! ## Prewarm (internal/avd/ops.go, PrewarmGolden boot-wait epilogue) -/

/-- Result of `SaveGolden`, abstract: the golden directory and total size,
or a failure. -/
inductive SaveRes where
  | ok (dir : Str) (size : Int)
  | err
deriving DecidableEq, Repr

/-- Outcome of the `PrewarmGolden` epilogue. -/
inductive PrewarmOutcome where
  | fromSave (r : SaveRes)
  | bootTimeout
deriving DecidableEq, Repr

/-- Emulator-affecting actions of the `PrewarmGolden` epilogue. -/
inductive PrewarmAct where
  | setupShell
  | killEmu
  | saveGolden
deriving DecidableEq, BEq, Repr

/-- Sizes `os.Stat` reports for the two userdata images of the AVD
(`userdata-qemu.img.qcow2` and `userdata-qemu.img`); `none` models a
stat error (file absent). -/
structure PrewarmFS where
  qcow2Size : Option Int
  rawSize : Option Int

/-- The `statErr == nil && st.Size() > 1024*1024` test of `PrewarmGolden`. -/
def exceeds1MiB : Option Int → Bool
  | some sz => sz > 1024 * 1024
  | none => false

/-- The epilogue of `PrewarmGolden` after the boot wait
(internal/avd/ops.go:523-552): on boot success run the setup shell
commands, kill, save golden; on boot failure, if either userdata image
exceeds 1 MiB, kill and save golden anyway (soft success); otherwise
return the boot error without saving. -/
def prewarmAfterBoot (bootOk : Bool) (fs : PrewarmFS) (saveRes : SaveRes) :
    PrewarmOutcome × List PrewarmAct :=
  if bootOk then
    (PrewarmOutcome.fromSave saveRes,
     [PrewarmAct.setupShell, PrewarmAct.killEmu, PrewarmAct.saveGolden])
  else if exceeds1MiB fs.qcow2Size then
    (PrewarmOutcome.fromSave saveRes, [PrewarmAct.killEmu, PrewarmAct.saveGolden])
  else if exceeds1MiB fs.rawSize then
    (PrewarmOutcome.fromSave saveRes, [PrewarmAct.killEmu, PrewarmAct.saveGolden])
  else (PrewarmOutcome.bootTimeout, [])

/-! ## Public facade (traced manager: ensureNotRunning, Run, RunOnPort) -/

/-- Errors surfaced by the facade Run variants. -/
inductive RunErr where
  | emptyName
  | alreadyRunning (name serial : Str)
  | listFailed
  | noFreePort
  | runAVDFailed
  | startErr (e : StartErr)
deriving DecidableEq, Repr

/-- Result of a facade Run variant, plus whether the facade proceeded to
the launch path. -/
inductive RunRes where
  | ok (serial : Str)
  | err (e : RunErr)
deriving DecidableEq, Repr

/-- `Manager.ensureNotRunning` (traced manager): error on an empty name,
error when the discovery listing carries the name, success otherwise. -/
def ensureNotRunning (name : Str) (procs : List ProcInfo) : Option RunErr :=
  if name = [] then some RunErr.emptyName
  else
    match procs.find? (fun p => p.name == name) with
    | some p => some (RunErr.alreadyRunning name p.serial)
    | none => none

/-- World observed by the facade Run variants: the discovery listing
consulted by `ensureNotRunning`, the second listing used by `RunOnPort`
for port-occupancy, the bind oracle behind `FindFreePort(5554, 5800)`,
the per-attempt bind oracle behind `StartEmulatorOnPort`, and the
abstract outcome of `RunAVD` (which picks its own port). -/
structure RunWorld where
  list1 : Option (List ProcInfo)
  list2 : Option (List ProcInfo)
  freeFind : Int → Bool
  freeStart : Nat → Int → Bool
  runAVDSerial : Option Str

/-- `Manager.Run` (traced manager): `ensureNotRunning` against discovery,
then delegate to `RunAVD`. The Bool records whether the launch path was
reached. -/
def ManagerRun (w : RunWorld) (name : Str) : RunRes × Bool :=
  match w.list1 with
  | none => (RunRes.err RunErr.listFailed, false)
  | some procs =>
    match ensureNotRunning name procs with
    | some e => (RunRes.err e, false)
    | none =>
      match w.runAVDSerial with
      | some serial => (RunRes.ok serial, true)
      | none => (RunRes.err RunErr.runAVDFailed, true)

/-- `Manager.RunOnPort` (traced manager): for port 0 behave like
`Manager.Run`; otherwise `ensureNotRunning`, then re-list and, when some
running emulator already occupies the requested port, silently reassign
to `FindFreePort(5554, 5800)`; finally delegate to `StartEmulatorOnPort`.
The Bool records whether the launch path was reached. -/
def ManagerRunOnPort (w : RunWorld) (name : Str) (port : Int) : RunRes × Bool :=
  if port = 0 then ManagerRun w name
  else
    match w.list1 with
    | none => (RunRes.err RunErr.listFailed, false)
    | some procs =>
      match ensureNotRunning name procs with
      | some e => (RunRes.err e, false)
      | none =>
        match w.list2 with
        | none => (RunRes.err RunErr.listFailed, false)
        | some procs2 =>
          if procs2.any (fun p => p.port == port) then
            match (FindFreeEvenPort w.freeFind 5554 5800).1 with
            | none => (RunRes.err RunErr.noFreePort, false)
            | some fp =>
              match (StartEmulatorOnPort w.freeStart fp).1 with
              | StartOutcome.launch serial => (RunRes.ok serial, true)
              | StartOutcome.err e => (RunRes.err (RunErr.startErr e), false)
          else
            match (StartEmulatorOnPort w.freeStart port).1 with
            | StartOutcome.launch serial => (RunRes.ok serial, true)
            | StartOutcome.err e => (RunRes.err (RunErr.startErr e), false)

/-- Number of 2-second sleeps in a supervisor event trace. -/
def countSleeps : List StartEv → Nat
  | [] => 0
  | StartEv.sleep2 :: r => countSleeps r + 1
  | StartEv.probe _ :: r => countSleeps r

/-! ## Claim-side definitions and concrete scenarios -/

/-- The `emulator-<port>` serial shape as the spec words it: the literal
prefix followed by a (digit-string) port number. Stated from the spec for
comparison with the code's weaker prefix-only check. -/
def matchesSerialPattern (s : Str) : Bool :=
  strHasPre (str "emulator-") s && (digitsVal (s.drop (str "emulator-").length)).isSome

/-- First free even port in the inclusive range [5554, 5800], as the
claim about `RunOnPort` port reassignment words it (the code actually
scans the half-open range [5554, 5800)). Modelled from the claim for the
boundary comparison. -/
def claimFirstFreeEvenIncl (free : Int → Bool) : Option Int :=
  (findFreeLoopAux free 247 5554 5801).1

/-- Concrete discovery scenario: `adb devices` reports nothing, one live
qemu process serves console port 5554, and the boot-property probe fails
(nonzero exit) while still printing `1`. -/
def discOracleA : DiscoveryOracle where
  devicesOut := []
  procTable := [(7, str "emulator" ++ nulChar :: str "-avd" ++ nulChar :: str "foo" ++
    nulChar :: str "-port" ++ nulChar :: str "5554")]
  getpropOk := fun _ => false
  getpropOut := fun _ => str "1"
  consoleAvdName := fun _ => []

/-- Concrete stop scenario: the console kill exits cleanly, no process
matches any port in either process-table snapshot. -/
def stopOracleIdle : StopOracle where
  adbKillOk := true
  table1 := []
  table2 := []
  sigIntOk := true

/-- Concrete facade scenario for the port-reassignment boundary: the name
is free, the requested port 5554 is occupied by another emulator, and the
only bindable port pair starts at 5800. -/
def runWorldEdge : RunWorld where
  list1 := some [⟨str "emulator-5554", str "other", 5554, 9, true⟩]
  list2 := some [⟨str "emulator-5554", str "other", 5554, 9, true⟩]
  freeFind := fun p => decide (5800 ≤ p)
  freeStart := fun _ _ => true
  runAVDSerial := none

/-! ## String lemmas -/

theorem strHasPre_iff (p : Str) : ∀ s, strHasPre p s = true ↔ ∃ t, s = p ++ t := by
  induction p with
  | nil => intro s; simp [strHasPre]
  | cons c p ih =>
    intro s
    cases s with
    | nil =>
      simp only [strHasPre, Bool.false_eq_true, false_iff]
      rintro ⟨t, ht⟩
      exact List.noConfusion ht
    | cons d s' =>
      simp only [strHasPre, Bool.and_eq_true, beq_iff_eq, ih]
      constructor
      · rintro ⟨rfl, t, rfl⟩
        exact ⟨t, rfl⟩
      · rintro ⟨t, ht⟩
        injection ht with h1 h2
        exact ⟨h1.symm, t, h2⟩

theorem strHasPre_length {p s : Str} (h : strHasPre p s = true) : p.length ≤ s.length := by
  obtain ⟨t, rfl⟩ := (strHasPre_iff p s).mp h
  simp

theorem strHasPre_append_self (p t : Str) : strHasPre p (p ++ t) = true :=
  (strHasPre_iff p (p ++ t)).mpr ⟨t, rfl⟩

theorem strHasPre_extend {p x : Str} (z : Str) (h : strHasPre p x = true) :
    strHasPre p (x ++ z) = true := by
  obtain ⟨t, rfl⟩ := (strHasPre_iff p x).mp h
  exact (strHasPre_iff p _).mpr ⟨t ++ z, by simp⟩

theorem strHasPre_of_append {p x z : Str} (hlen : p.length ≤ x.length)
    (h : strHasPre p (x ++ z) = true) : strHasPre p x = true := by
  obtain ⟨t, ht⟩ := (strHasPre_iff p (x ++ z)).mp h
  have htake : (x ++ z).take p.length = p := by
    rw [ht, List.take_left' rfl]
  rw [List.take_append_of_le_length hlen] at htake
  refine (strHasPre_iff p x).mpr ⟨x.drop p.length, ?_⟩
  conv_lhs => rw [← List.take_append_drop p.length x]
  rw [htake]

theorem strHasPre_cross {p x y : Str} {sep : Char} (hsep : sep ∉ p)
    (h : strHasPre p (x ++ sep :: y) = true) : p.length ≤ x.length := by
  by_contra hgt
  push_neg at hgt
  obtain ⟨t, ht⟩ := (strHasPre_iff p _).mp h
  have htake : (x ++ sep :: y).take p.length = p := by
    rw [ht, List.take_left' rfl]
  rw [List.take_append_eq_append_take] at htake
  have hx : x.take p.length = x := List.take_of_length_le (by omega)
  rw [hx] at htake
  have hpos : 0 < p.length - x.length := by omega
  have hsep' : sep ∈ p := by
    rw [← htake]
    refine List.mem_append_right _ ?_
    cases hk : p.length - x.length with
    | zero => omega
    | succ k => simp [List.take_succ_cons]
  exact hsep hsep'

theorem strContains_iff (pat : Str) : ∀ s, strContains pat s = true ↔ ∃ u v, s = u ++ pat ++ v := by
  intro s
  induction s with
  | nil =>
    simp only [strContains, strHasPre_iff]
    constructor
    · rintro ⟨t, ht⟩
      exact ⟨[], t, by simpa using ht⟩
    · rintro ⟨u, v, huv⟩
      have hu : u = [] := by
        cases u with
        | nil => rfl
        | cons a u' => exact absurd huv.symm (by simp)
      subst hu
      exact ⟨v, by simpa using huv⟩
  | cons c rest ih =>
    simp only [strContains, Bool.or_eq_true, strHasPre_iff, ih]
    constructor
    · rintro (⟨t, ht⟩ | ⟨u, v, huv⟩)
      · exact ⟨[], t, by simpa using ht⟩
      · exact ⟨c :: u, v, by simp [huv]⟩
    · rintro ⟨u, v, huv⟩
      cases u with
      | nil => exact Or.inl ⟨v, by simpa using huv⟩
      | cons a u' =>
        injection huv with h1 h2
        exact Or.inr ⟨u', v, h2⟩

theorem strContains_of_decomp {pat s : Str} (u v : Str) (h : s = u ++ pat ++ v) :
    strContains pat s = true :=
  (strContains_iff pat s).mpr ⟨u, v, h⟩

theorem strContains_extend_left {pat t : Str} (s : Str) (h : strContains pat t = true) :
    strContains pat (s ++ t) = true := by
  obtain ⟨u, v, rfl⟩ := (strContains_iff pat t).mp h
  exact strContains_of_decomp (s ++ u) v (by simp)

theorem strContains_extend_right {pat s : Str} (z : Str) (h : strContains pat s = true) :
    strContains pat (s ++ z) = true := by
  obtain ⟨u, v, rfl⟩ := (strContains_iff pat s).mp h
  exact strContains_of_decomp u (v ++ z) (by simp)

/-! ## Split / join lemmas -/

theorem splitOnP_ne_nil (p : Char → Bool) : ∀ s, splitOnP p s ≠ [] := by
  intro s
  induction s with
  | nil => simp [splitOnP]
  | cons c rest ih =>
    simp only [splitOnP]
    split
    · simp
    · split
      · simp
      · simp

theorem mem_splitOnP_sep_free (p : Char → Bool) :
    ∀ s, ∀ l ∈ splitOnP p s, ∀ c ∈ l, p c = false := by
  intro s
  induction s with
  | nil =>
    intro l hl c hc
    simp only [splitOnP, List.mem_singleton] at hl
    subst hl
    simp at hc
  | cons d rest ih =>
    intro l hl c hc
    simp only [splitOnP] at hl
    split at hl
    · rcases List.mem_cons.mp hl with rfl | hl'
      · simp at hc
      · exact ih l hl' c hc
    · rename_i hd
      rcases hsp : splitOnP p rest with _ | ⟨l0, ls⟩
      · exact absurd hsp (splitOnP_ne_nil p rest)
      · rw [hsp] at hl
        rcases List.mem_cons.mp hl with rfl | hl'
        · rcases List.mem_cons.mp hc with rfl | hc'
          · simpa using hd
          · exact ih l0 (by rw [hsp]; exact List.mem_cons_self _ _) c hc'
        · exact ih l (by rw [hsp]; exact List.mem_cons_of_mem _ hl') c hc

theorem splitOnP_sep_free {p : Char → Bool} {l : Str} (h : ∀ c ∈ l, p c = false) :
    splitOnP p l = [l] := by
  induction l with
  | nil => simp [splitOnP]
  | cons c rest ih =>
    have hc : p c = false := h c (List.mem_cons_self _ _)
    have hrest : splitOnP p rest = [rest] := ih (fun d hd => h d (List.mem_cons_of_mem _ hd))
    simp [splitOnP, hc, hrest]

theorem splitOnP_append_sep {p : Char → Bool} {a : Str} {sep : Char} (t : Str)
    (hsep : p sep = true) (h : ∀ c ∈ a, p c = false) :
    splitOnP p (a ++ sep :: t) = a :: splitOnP p t := by
  induction a with
  | nil => simp [splitOnP, hsep]
  | cons c a' ih =>
    have hc : p c = false := h c (List.mem_cons_self _ _)
    have ha' := ih (fun d hd => h d (List.mem_cons_of_mem _ hd))
    simp only [List.cons_append, splitOnP, hc, Bool.false_eq_true, if_false, List.append_eq, ha']

theorem splitNl_joinNl : ∀ ls : List Str, ls ≠ [] →
    (∀ l ∈ ls, ∀ c ∈ l, (c == '\n') = false) → splitNl (joinNl ls) = ls := by
  intro ls
  induction ls with
  | nil => intro h; exact absurd rfl h
  | cons l ls ih =>
    intro _ hfree
    cases ls with
    | nil =>
      show splitNl (joinNl [l]) = [l]
      exact splitOnP_sep_free (hfree l (List.mem_cons_self _ _))
    | cons l' ls' =>
      show splitNl (l ++ '\n' :: joinNl (l' :: ls')) = l :: l' :: ls'
      rw [show splitNl (l ++ '\n' :: joinNl (l' :: ls')) =
            l :: splitNl (joinNl (l' :: ls')) from
          splitOnP_append_sep _ (by decide) (hfree l (List.mem_cons_self _ _))]
      rw [ih (by simp) (fun m hm => hfree m (List.mem_cons_of_mem _ hm))]

theorem joinNl_mem_decomp : ∀ ls : List Str, ∀ l ∈ ls, ∃ u v, joinNl ls = u ++ l ++ v := by
  intro ls
  induction ls with
  | nil => intro l hl; simp at hl
  | cons l0 ls ih =>
    intro l hl
    cases ls with
    | nil =>
      rcases List.mem_singleton.mp hl with rfl
      exact ⟨[], [], by simp [joinNl]⟩
    | cons l1 ls' =>
      rcases List.mem_cons.mp hl with rfl | hl'
      · exact ⟨[], '\n' :: joinNl (l1 :: ls'), by simp [joinNl]⟩
      · obtain ⟨u, v, hu⟩ := ih l hl'
        exact ⟨l0 ++ '\n' :: u, v, by simp [joinNl, hu]⟩

/-! ## replaceAll lemmas -/

theorem replaceAllAux_congr (pat rep : Str) :
    ∀ f g s, s.length ≤ f → s.length ≤ g →
      replaceAllAux pat rep f s = replaceAllAux pat rep g s := by
  intro f
  induction f with
  | zero =>
    intro g s hf _
    have hs : s = [] := List.length_eq_zero.mp (Nat.le_zero.mp hf)
    subst hs
    cases g <;> rfl
  | succ f ih =>
    intro g s hf hg
    cases s with
    | nil => cases g <;> rfl
    | cons c rest =>
      cases g with
      | zero => simp at hg
      | succ g' =>
        have hf' : rest.length ≤ f := by simp at hf; omega
        have hg' : rest.length ≤ g' := by simp at hg; omega
        have hd : (rest.drop (pat.length - 1)).length ≤ rest.length := by
          simp only [List.length_drop]
          omega
        simp only [replaceAllAux]
        split
        · rw [ih g' (rest.drop (pat.length - 1)) (le_trans hd hf') (le_trans hd hg')]
        · rw [ih g' rest hf' hg']

theorem replaceAll_nil (pat rep : Str) : replaceAll pat rep [] = [] := rfl

theorem replaceAll_cons_pos {pat : Str} (rep : Str) {c : Char} {rest : Str}
    (h : strHasPre pat (c :: rest) = true) :
    replaceAll pat rep (c :: rest) = rep ++ replaceAll pat rep (rest.drop (pat.length - 1)) := by
  show replaceAllAux pat rep (rest.length + 1) (c :: rest) = _
  simp only [replaceAllAux, h, if_true]
  rw [replaceAllAux_congr pat rep rest.length (rest.drop (pat.length - 1)).length _
    (by simp only [List.length_drop]; omega) le_rfl]
  rfl

theorem replaceAll_cons_neg {pat : Str} (rep : Str) {c : Char} {rest : Str}
    (h : strHasPre pat (c :: rest) = false) :
    replaceAll pat rep (c :: rest) = c :: replaceAll pat rep rest := by
  show replaceAllAux pat rep (rest.length + 1) (c :: rest) = _
  simp only [replaceAllAux, h, Bool.false_eq_true, if_false]
  rfl

theorem replaceAll_split {pat : Str} (rep : Str) (hp : pat ≠ []) (hnl : '\n' ∉ pat) :
    ∀ a b : Str, replaceAll pat rep (a ++ '\n' :: b) =
      replaceAll pat rep a ++ '\n' :: replaceAll pat rep b := by
  have hnlpre : ∀ b : Str, strHasPre pat ('\n' :: b) = false := by
    intro b
    cases hq : strHasPre pat ('\n' :: b) with
    | false => rfl
    | true =>
      obtain ⟨t, ht⟩ := (strHasPre_iff pat _).mp hq
      cases pat with
      | nil => exact absurd rfl hp
      | cons p0 pr =>
        injection ht with h1 _
        exact absurd (h1 ▸ List.mem_cons_self p0 pr) hnl
  have main : ∀ n (a b : Str), a.length ≤ n →
      replaceAll pat rep (a ++ '\n' :: b) =
        replaceAll pat rep a ++ '\n' :: replaceAll pat rep b := by
    intro n
    induction n with
    | zero =>
      intro a b ha
      have : a = [] := List.length_eq_zero.mp (Nat.le_zero.mp ha)
      subst this
      simp only [List.nil_append, replaceAll_nil]
      rw [replaceAll_cons_neg rep (hnlpre b)]
    | succ n ih =>
      intro a b ha
      cases a with
      | nil =>
        simp only [List.nil_append, replaceAll_nil]
        rw [replaceAll_cons_neg rep (hnlpre b)]
      | cons c a' =>
        have hrw : (c :: a') ++ '\n' :: b = c :: (a' ++ '\n' :: b) := rfl
        rw [hrw]
        cases hpre : strHasPre pat (c :: (a' ++ '\n' :: b)) with
        | true =>
          have hle : pat.length ≤ a'.length + 1 := by
            have := strHasPre_cross (x := c :: a') (y := b) hnl hpre
            simpa using this
          have hpre2 : strHasPre pat (c :: a') = true :=
            strHasPre_of_append (x := c :: a') (by simpa using hle) (by simpa using hpre)
          have han : a'.length ≤ n := by simp at ha; omega
          rw [replaceAll_cons_pos rep hpre, replaceAll_cons_pos rep hpre2]
          rw [List.drop_append_of_le_length (by omega)]
          rw [ih _ b (le_trans (by simp only [List.length_drop]; omega) han)]
          simp
        | false =>
          have hpre2 : strHasPre pat (c :: a') = false := by
            cases hq : strHasPre pat (c :: a') with
            | false => rfl
            | true =>
              have := strHasPre_extend ('\n' :: b) hq
              rw [show (c :: a') ++ '\n' :: b = c :: (a' ++ '\n' :: b) from rfl] at this
              rw [this] at hpre
              exact absurd hpre (by simp)
          rw [replaceAll_cons_neg rep hpre, replaceAll_cons_neg rep hpre2]
          rw [ih a' b (by simpa using ha)]
          simp
  intro a b
  exact main a.length a b le_rfl

theorem replaceAll_joinNl {pat : Str} (rep : Str) (hp : pat ≠ []) (hnl : '\n' ∉ pat) :
    ∀ ls : List Str, replaceAll pat rep (joinNl ls) = joinNl (ls.map (replaceAll pat rep)) := by
  intro ls
  induction ls with
  | nil => simp [joinNl, replaceAll_nil]
  | cons l ls ih =>
    cases ls with
    | nil => simp [joinNl]
    | cons l' ls' =>
      show replaceAll pat rep (l ++ '\n' :: joinNl (l' :: ls')) = _
      rw [replaceAll_split rep hp hnl]
      rw [ih]
      rfl

/-! ## C7: the sanitizer is idempotent -/

/-- C7: the configuration sanitizer is a fixed point under composition:
for every input byte sequence `x`,
`sanitizeConfigINI (sanitizeConfigINI x) = sanitizeConfigINI x`. -/
theorem c7_sanitizeConfigINI_idempotent (x : Str) :
    sanitizeConfigINI (sanitizeConfigINI x) = sanitizeConfigINI x := by
  have hcanon : ∀ l ∈ canonLines, ∀ c ∈ l, (c == '\n') = false := by decide
  have hfree : ∀ l ∈ (splitNl x).filter (fun l => !dropLine l) ++ canonLines,
      ∀ c ∈ l, (c == '\n') = false := by
    intro l hl c hc
    rcases List.mem_append.mp hl with hk | hc'
    · exact mem_splitOnP_sep_free _ x l (List.mem_of_mem_filter hk) c hc
    · exact hcanon l hc' c hc
  have hsplit : splitNl (joinNl ((splitNl x).filter (fun l => !dropLine l) ++ canonLines)) =
      (splitNl x).filter (fun l => !dropLine l) ++ canonLines :=
    splitNl_joinNl _ (by simp [canonLines]) hfree
  unfold sanitizeConfigINI
  rw [hsplit, List.filter_append]
  have h1 : ((splitNl x).filter (fun l => !dropLine l)).filter (fun l => !dropLine l) =
      (splitNl x).filter (fun l => !dropLine l) :=
    List.filter_eq_self.mpr (fun a ha => (List.mem_filter.mp ha).2)
  have h2 : canonLines.filter (fun l => !dropLine l) = [] := by decide
  rw [h1, h2]
  simp

/-! ## C2: the clone's written config -/

/-- C2 counterexample: for the concrete base config `hw.ramSize=2048`,
the clone's written config does NOT contain the canonical
copy-on-write-userdata line `userdata.useQcow2=yes` (the clone step
replaced it with the `no` form), contradicting the claim that all four
canonical sanitizer lines survive into the clone's config. -/
theorem c2_counterexample :
    strContains (str "userdata.useQcow2=yes")
      (cloneFromGoldenConfig (str "hw.ramSize=2048")) = false ∧
    strContains (str "userdata.useQcow2=no")
      (cloneFromGoldenConfig (str "hw.ramSize=2048")) = true := by
  constructor
  · decide
  · decide

/-- C2 (amended): for every input, the clone's written config contains the
first three canonical sanitizer lines (`QuickBoot.mode=disabled`,
`snapshot.present=false`, `fastboot.forceColdBoot=yes`) and the line
`userdata.useQcow2=no` — the sanitizer's appended
`userdata.useQcow2=yes` line having been replaced, or the `no` line
appended when the key is absent. -/
theorem c2_cloneFromGoldenConfig_sanitized (x : Str) :
    strContains (str "QuickBoot.mode=disabled") (cloneFromGoldenConfig x) = true ∧
    strContains (str "snapshot.present=false") (cloneFromGoldenConfig x) = true ∧
    strContains (str "fastboot.forceColdBoot=yes") (cloneFromGoldenConfig x) = true ∧
    strContains (str "userdata.useQcow2=no") (cloneFromGoldenConfig x) = true := by
  have hp : (str "userdata.useQcow2=yes") ≠ [] := by decide
  have hnl : '\n' ∉ (str "userdata.useQcow2=yes") := by decide
  have hmapcanon : canonLines.map
      (replaceAll (str "userdata.useQcow2=yes") (str "userdata.useQcow2=no")) =
      [str "QuickBoot.mode=disabled", str "snapshot.present=false",
       str "fastboot.forceColdBoot=yes", str "userdata.useQcow2=no"] := by decide
  have hjoin : replaceAll (str "userdata.useQcow2=yes") (str "userdata.useQcow2=no")
      (sanitizeConfigINI x) =
      joinNl (((splitNl x).filter (fun l => !dropLine l)).map
          (replaceAll (str "userdata.useQcow2=yes") (str "userdata.useQcow2=no")) ++
        [str "QuickBoot.mode=disabled", str "snapshot.present=false",
         str "fastboot.forceColdBoot=yes", str "userdata.useQcow2=no"]) := by
    unfold sanitizeConfigINI
    rw [replaceAll_joinNl _ hp hnl, List.map_append, hmapcanon]
  have key : ∀ t : Str,
      t ∈ [str "QuickBoot.mode=disabled", str "snapshot.present=false",
           str "fastboot.forceColdBoot=yes", str "userdata.useQcow2=no"] →
      strContains t (cloneFromGoldenConfig x) = true := by
    intro t ht
    obtain ⟨u, v, huv⟩ := joinNl_mem_decomp _ t (List.mem_append_right _ ht)
    have hs : strContains t (replaceAll (str "userdata.useQcow2=yes")
        (str "userdata.useQcow2=no") (sanitizeConfigINI x)) = true := by
      rw [hjoin]
      exact strContains_of_decomp u v huv
    simp only [cloneFromGoldenConfig]
    split
    · exact hs
    · exact strContains_extend_right _ hs
  exact ⟨key _ (by decide), key _ (by decide), key _ (by decide), key _ (by decide)⟩

/-! ## C4: Prewarm soft-success rule -/

/-- C4: in `PrewarmGolden`, when the boot wait fails but one of the two
userdata images exceeds 1 MiB, the emulator is killed, save-golden is
performed and its (successful) result is returned; when neither exceeds
1 MiB, the boot error is returned and no golden is saved. -/
theorem c4_prewarm_soft_success (fs : PrewarmFS) (saveRes : SaveRes) :
    ((exceeds1MiB fs.qcow2Size || exceeds1MiB fs.rawSize) = true →
      prewarmAfterBoot false fs saveRes =
        (PrewarmOutcome.fromSave saveRes, [PrewarmAct.killEmu, PrewarmAct.saveGolden])) ∧
    ((exceeds1MiB fs.qcow2Size || exceeds1MiB fs.rawSize) = false →
      prewarmAfterBoot false fs saveRes = (PrewarmOutcome.bootTimeout, [])) := by
  constructor
  · intro h
    cases hq : exceeds1MiB fs.qcow2Size <;> cases hr : exceeds1MiB fs.rawSize <;>
      simp_all [prewarmAfterBoot]
  · intro h
    cases hq : exceeds1MiB fs.qcow2Size <;> cases hr : exceeds1MiB fs.rawSize <;>
      simp_all [prewarmAfterBoot]

/-- C4 witness: with a 2 MiB qcow2 userdata on disk and a successful
save-golden, the boot-wait failure still yields kill + save-golden and
the save-golden success is returned. -/
theorem c4_witness :
    prewarmAfterBoot false ⟨some 2097152, none⟩ (SaveRes.ok (str "golden") 5) =
      (PrewarmOutcome.fromSave (SaveRes.ok (str "golden") 5),
       [PrewarmAct.killEmu, PrewarmAct.saveGolden]) :=
  (c4_prewarm_soft_success ⟨some 2097152, none⟩ (SaveRes.ok (str "golden") 5)).1 (by decide)

/-! ## C5: StartEmulatorOnPort validation and retry budget -/

theorem countSleeps_attemptProbe (free : Nat → Int → Bool) (port : Int) (a : Nat) :
    countSleeps (attemptProbe free port a).2 = 0 := by
  unfold attemptProbe
  split <;> rfl

theorem countSleeps_append (l1 l2 : List StartEv) :
    countSleeps (l1 ++ l2) = countSleeps l1 + countSleeps l2 := by
  induction l1 with
  | nil => simp [countSleeps]
  | cons e r ih =>
    cases e with
    | probe p => simp [countSleeps, ih]
    | sleep2 =>
      show countSleeps (r ++ l2) + 1 = countSleeps r + 1 + countSleeps l2
      rw [ih]
      omega

/-- C5: `StartEmulatorOnPort` rejects every odd port, then every port
outside [5554, 5800], with a precondition error and no prior probe,
sleep, or launch; for a valid port whose pair fails all three probe
attempts, it returns the collision error naming both ports, after
exactly two fixed 2-second delays separating the three attempts, and
the first action taken is a probe of the port (never a launch). -/
theorem c5_startEmulatorOnPort_validation (free : Nat → Int → Bool) (port : Int) :
    (port % 2 ≠ 0 →
      StartEmulatorOnPort free port = (StartOutcome.err (StartErr.oddPort port), [])) ∧
    (port % 2 = 0 → (port < 5554 ∨ port > 5800) →
      StartEmulatorOnPort free port = (StartOutcome.err (StartErr.rangeErr port), [])) ∧
    (port % 2 = 0 → ¬(port < 5554 ∨ port > 5800) →
      (∀ a, a < 3 → (free a port && free a (port + 1)) = false) →
      (StartEmulatorOnPort free port).1 = StartOutcome.err (StartErr.portsBusy port (port + 1)) ∧
      countSleeps (StartEmulatorOnPort free port).2 = 2 ∧
      StartEv.probe port ∈ (StartEmulatorOnPort free port).2) := by
  refine ⟨?_, ?_, ?_⟩
  · intro hodd
    simp [StartEmulatorOnPort, hodd]
  · intro heven hrange
    simp [StartEmulatorOnPort, heven, hrange]
  · intro heven hrange hbusy
    have h0 := hbusy 0 (by omega)
    have h1 := hbusy 1 (by omega)
    have h2 := hbusy 2 (by omega)
    have hretry : portRetry free port =
        (false, (attemptProbe free port 0).2 ++ StartEv.sleep2 ::
          (attemptProbe free port 1).2 ++ StartEv.sleep2 :: (attemptProbe free port 2).2) := by
      unfold portRetry
      simp only [attemptProbe, h0, h1, h2, Bool.false_eq_true, if_false]
    have hresult : StartEmulatorOnPort free port =
        (StartOutcome.err (StartErr.portsBusy port (port + 1)),
         (attemptProbe free port 0).2 ++ StartEv.sleep2 ::
           (attemptProbe free port 1).2 ++ StartEv.sleep2 :: (attemptProbe free port 2).2) := by
      unfold StartEmulatorOnPort
      rw [if_neg (by omega), if_neg hrange, hretry]
      rfl
    refine ⟨by rw [hresult], ?_, ?_⟩
    · rw [hresult]
      show countSleeps (((attemptProbe free port 0).2 ++ StartEv.sleep2 ::
        (attemptProbe free port 1).2) ++ StartEv.sleep2 :: (attemptProbe free port 2).2) = 2
      rw [countSleeps_append, countSleeps_append]
      show countSleeps (attemptProbe free port 0).2 +
          (countSleeps (attemptProbe free port 1).2 + 1) +
          (countSleeps (attemptProbe free port 2).2 + 1) = 2
      rw [countSleeps_attemptProbe, countSleeps_attemptProbe, countSleeps_attemptProbe]
    · rw [hresult]
      refine List.mem_append_left _ ?_
      unfold attemptProbe
      split <;> simp

/-- C5 witness: port 5554 with a bind oracle that always refuses yields
the collision error naming 5554 and 5555 after two inter-attempt sleeps,
having probed the port; and ports 5553 (odd) and 5802 (even, out of
range) are rejected with empty traces. -/
theorem c5_witness :
    ((StartEmulatorOnPort (fun _ _ => false) 5554).1 =
        StartOutcome.err (StartErr.portsBusy 5554 5555) ∧
      countSleeps (StartEmulatorOnPort (fun _ _ => false) 5554).2 = 2 ∧
      StartEv.probe 5554 ∈ (StartEmulatorOnPort (fun _ _ => false) 5554).2) ∧
    StartEmulatorOnPort (fun _ _ => false) 5553 =
      (StartOutcome.err (StartErr.oddPort 5553), []) ∧
    StartEmulatorOnPort (fun _ _ => false) 5802 =
      (StartOutcome.err (StartErr.rangeErr 5802), []) := by
  refine ⟨?_, ?_, ?_⟩
  · exact (c5_startEmulatorOnPort_validation (fun _ _ => false) 5554).2.2
      (by decide) (by decide) (fun a _ => rfl)
  · exact (c5_startEmulatorOnPort_validation (fun _ _ => false) 5553).1 (by decide)
  · exact (c5_startEmulatorOnPort_validation (fun _ _ => false) 5802).2.1 (by decide)
      (by decide)

/-! ## Port-scan loop characterization -/

theorem findFreeLoopAux_stop (free : Int → Bool) (fuel : Nat) {p e : Int} (h : ¬ p < e) :
    findFreeLoopAux free fuel p e = (none, []) := by
  cases fuel with
  | zero => rfl
  | succ fuel => simp [findFreeLoopAux, h]

theorem findFreeLoopAux_some (free : Int → Bool) (e : Int) :
    ∀ fuel (p q : Int), (e - p).toNat ≤ fuel →
      (findFreeLoopAux free fuel p e).1 = some q →
      p ≤ q ∧ q < e ∧ free q = true ∧ free (q + 1) = true ∧ (q - p) % 2 = 0 ∧
        ∀ r, p ≤ r → r < q → (r - p) % 2 = 0 → ¬(free r = true ∧ free (r + 1) = true) := by
  intro fuel
  induction fuel with
  | zero =>
    intro p q hf hr
    simp [findFreeLoopAux] at hr
  | succ fuel ih =>
    intro p q hf hr
    simp only [findFreeLoopAux] at hr
    by_cases hpe : p < e
    · rw [if_pos hpe] at hr
      by_cases hfp : free p = true
      · rw [if_pos hfp] at hr
        by_cases hfp1 : free (p + 1) = true
        · rw [if_pos hfp1] at hr
          simp only [Option.some.injEq] at hr
          subst hr
          exact ⟨le_refl p, hpe, hfp, hfp1, by omega, fun r h1 h2 _ => by omega⟩
        · rw [if_neg hfp1] at hr
          have hrec := ih (p + 2) q (by omega) hr
          refine ⟨by omega, hrec.2.1, hrec.2.2.1, hrec.2.2.2.1, by omega, ?_⟩
          intro r h1 h2 h3
          rcases lt_or_ge r (p + 2) with hlt | hge
          · have hrp : r = p := by omega
            subst hrp
            rintro ⟨_, c2⟩
            exact hfp1 c2
          · have := hrec.2.2.2.2.2 r hge h2 (by omega)
            exact this
      · rw [if_neg hfp] at hr
        have hrec := ih (p + 2) q (by omega) hr
        refine ⟨by omega, hrec.2.1, hrec.2.2.1, hrec.2.2.2.1, by omega, ?_⟩
        intro r h1 h2 h3
        rcases lt_or_ge r (p + 2) with hlt | hge
        · have hrp : r = p := by omega
          subst hrp
          rintro ⟨c1, _⟩
          exact hfp c1
        · exact hrec.2.2.2.2.2 r hge h2 (by omega)
    · rw [if_neg hpe] at hr
      simp at hr

theorem findFreeLoopAux_none (free : Int → Bool) (e : Int) :
    ∀ fuel (p : Int), (e - p).toNat ≤ fuel →
      ((findFreeLoopAux free fuel p e).1 = none ↔
        ∀ r, p ≤ r → r < e → (r - p) % 2 = 0 → ¬(free r = true ∧ free (r + 1) = true)) := by
  intro fuel
  induction fuel with
  | zero =>
    intro p hf
    have hpe : ¬ p < e := by omega
    rw [findFreeLoopAux_stop free 0 hpe]
    simp only [true_iff]
    intro r h1 h2 _
    omega
  | succ fuel ih =>
    intro p hf
    by_cases hpe : p < e
    · simp only [findFreeLoopAux, if_pos hpe]
      by_cases hfp : free p = true
      · rw [if_pos hfp]
        by_cases hfp1 : free (p + 1) = true
        · rw [if_pos hfp1]
          constructor
          · intro hcontra
            simp at hcontra
          · intro h
            exact absurd ⟨hfp, hfp1⟩ (h p (le_refl p) hpe (by omega))
        · rw [if_neg hfp1]
          rw [show ((let r := findFreeLoopAux free fuel (p + 2) e;
            (r.1, p :: (p + 1) :: r.2)) : Option Int × List Int).1 =
              (findFreeLoopAux free fuel (p + 2) e).1 from rfl]
          rw [ih (p + 2) (by omega)]
          constructor
          · intro h r h1 h2 h3
            rcases lt_or_ge r (p + 2) with hlt | hge
            · have hrp : r = p := by omega
              subst hrp
              rintro ⟨_, c2⟩
              exact hfp1 c2
            · exact h r hge h2 (by omega)
          · intro h r h1 h2 h3
            exact h r (by omega) h2 (by omega)
      · rw [if_neg hfp]
        rw [show ((let r := findFreeLoopAux free fuel (p + 2) e;
          (r.1, p :: r.2)) : Option Int × List Int).1 =
            (findFreeLoopAux free fuel (p + 2) e).1 from rfl]
        rw [ih (p + 2) (by omega)]
        constructor
        · intro h r h1 h2 h3
          rcases lt_or_ge r (p + 2) with hlt | hge
          · have hrp : r = p := by omega
            subst hrp
            rintro ⟨c1, _⟩
            exact hfp c1
          · exact h r hge h2 (by omega)
        · intro h r h1 h2 h3
          exact h r (by omega) h2 (by omega)
    · rw [findFreeLoopAux_stop free _ hpe]
      simp only [true_iff]
      intro r h1 h2 _
      omega

/-! ## C6: FindFreeEvenPort -/

/-- C6: `FindFreeEvenPort` rounds an odd start up to the next even
number `s'`; any returned port is even, lies in [s', e), has both itself
and its successor bindable, and is the first even port in the range with
that property; the search fails exactly when no even port in [s', e) has
a bindable pair; and with `s = e` it fails immediately with no bind
attempted. -/
theorem c6_findFreeEvenPort_correct (free : Int → Bool) (s e s' : Int)
    (hs' : s' = if s % 2 ≠ 0 then s + 1 else s) :
    (s' % 2 = 0 ∧ s ≤ s' ∧ s' ≤ s + 1) ∧
    (∀ q, (FindFreeEvenPort free s e).1 = some q →
      q % 2 = 0 ∧ s' ≤ q ∧ q < e ∧ free q = true ∧ free (q + 1) = true ∧
        ∀ r, r % 2 = 0 → s' ≤ r → r < q → ¬(free r = true ∧ free (r + 1) = true)) ∧
    ((FindFreeEvenPort free s e).1 = none ↔
      ∀ r, r % 2 = 0 → s' ≤ r → r < e → ¬(free r = true ∧ free (r + 1) = true)) ∧
    (s = e → FindFreeEvenPort free s e = (none, [])) := by
  have hev : s' % 2 = 0 ∧ s ≤ s' ∧ s' ≤ s + 1 := by
    by_cases h : s % 2 ≠ 0 <;> simp [h] at hs' <;> omega
  have hstart : FindFreeEvenPort free s e = findFreeLoopAux free (e - s').toNat s' e := by
    rw [FindFreeEvenPort, hs']
  refine ⟨hev, ?_, ?_, ?_⟩
  · intro q hq
    rw [hstart] at hq
    have h := findFreeLoopAux_some free e (e - s').toNat s' q (le_refl _) hq
    refine ⟨by omega, h.1, h.2.1, h.2.2.1, h.2.2.2.1, ?_⟩
    intro r hr1 hr2 hr3
    exact h.2.2.2.2.2 r hr2 hr3 (by omega)
  · rw [hstart]
    rw [findFreeLoopAux_none free e (e - s').toNat s' (le_refl _)]
    constructor
    · intro h r hr1 hr2 hr3
      exact h r hr2 hr3 (by omega)
    · intro h r hr1 hr2 hr3
      exact h r (by omega) hr1 hr2
  · intro hse
    rw [hstart]
    exact findFreeLoopAux_stop free _ (by omega)

/-- C6 witness: with start 5555 (odd) and end 5560, a bind oracle that
frees ports from 5556 on makes the allocator return 5556, the first even
port at or above the rounded start. -/
theorem c6_witness :
    (FindFreeEvenPort (fun p => decide (5556 ≤ p)) 5555 5560).1 = some 5556 ∧
    (5556 : Int) % 2 = 0 ∧ (5555 : Int) ≤ 5556 ∧
    FindFreeEvenPort (fun p => decide (5556 ≤ p)) 5560 5560 = (none, []) := by
  have h := c6_findFreeEvenPort_correct (fun p => decide (5556 ≤ p)) 5555 5560 5556 (by decide)
  have hq : (FindFreeEvenPort (fun p => decide (5556 ≤ p)) 5555 5560).1 = some 5556 := by decide
  have h2 := c6_findFreeEvenPort_correct (fun p => decide (5556 ≤ p)) 5560 5560 5560 (by decide)
  exact ⟨hq, (h.2.1 5556 hq).1, h.1.2.1, h2.2.2.2 rfl⟩

/-! ## Facade helpers -/

theorem ensureNotRunning_of_mem {procs : List ProcInfo} {name : Str}
    (h : ∃ p ∈ procs, p.name = name) : ∃ e, ensureNotRunning name procs = some e := by
  unfold ensureNotRunning
  split
  · exact ⟨RunErr.emptyName, rfl⟩
  · obtain ⟨p, hp, hn⟩ := h
    have hfind : (procs.find? (fun q => q.name == name)).isSome :=
      List.find?_isSome.mpr ⟨p, hp, by simp [hn]⟩
    obtain ⟨q, hq⟩ := Option.isSome_iff_exists.mp hfind
    rw [hq]
    exact ⟨RunErr.alreadyRunning name q.serial, rfl⟩

theorem ensureNotRunning_none {procs : List ProcInfo} {name : Str}
    (h : ensureNotRunning name procs = none) : ∀ p ∈ procs, p.name ≠ name := by
  intro p hp
  unfold ensureNotRunning at h
  split at h
  · simp at h
  · cases hf : procs.find? (fun q => q.name == name) with
    | some q => rw [hf] at h; simp at h
    | none =>
      have := List.find?_eq_none.mp hf p hp
      simpa using this

/-! ## C1: the facade gates every Run variant on discovery -/

/-- C1: both facade Run variants first consult the discovery listing:
when some running emulator carries the requested name they return an
error without reaching the launch path, and conversely the launch path
is reached only when the name is absent from the listing. -/
theorem c1_facade_run_gated_on_discovery (w : RunWorld) (name : Str) (port : Int)
    (procs : List ProcInfo) (h1 : w.list1 = some procs) :
    ((∃ p ∈ procs, p.name = name) →
      (ManagerRun w name).2 = false ∧ (∃ e, (ManagerRun w name).1 = RunRes.err e) ∧
      (ManagerRunOnPort w name port).2 = false ∧
      (∃ e, (ManagerRunOnPort w name port).1 = RunRes.err e)) ∧
    ((ManagerRun w name).2 = true → ∀ p ∈ procs, p.name ≠ name) ∧
    ((ManagerRunOnPort w name port).2 = true → ∀ p ∈ procs, p.name ≠ name) := by
  have hRun : ∀ e, ensureNotRunning name procs = some e →
      ManagerRun w name = (RunRes.err e, false) := by
    intro e he
    simp only [ManagerRun, h1, he]
  have hRunPort : ∀ e, ensureNotRunning name procs = some e →
      ManagerRunOnPort w name port = (RunRes.err e, false) := by
    intro e he
    by_cases hp0 : port = 0
    · simp only [ManagerRunOnPort, hp0, if_pos rfl]
      exact hRun e he
    · simp only [ManagerRunOnPort, if_neg hp0, h1, he]
  refine ⟨?_, ?_, ?_⟩
  · intro hex
    obtain ⟨e, he⟩ := ensureNotRunning_of_mem hex
    exact ⟨by rw [hRun e he], ⟨e, by rw [hRun e he]⟩,
      by rw [hRunPort e he], ⟨e, by rw [hRunPort e he]⟩⟩
  · intro hlaunch p hp hname
    obtain ⟨e, he⟩ := ensureNotRunning_of_mem ⟨p, hp, hname⟩
    rw [hRun e he] at hlaunch
    simp at hlaunch
  · intro hlaunch p hp hname
    obtain ⟨e, he⟩ := ensureNotRunning_of_mem ⟨p, hp, hname⟩
    rw [hRunPort e he] at hlaunch
    simp at hlaunch

/-- C1 witness: with the discovery listing showing `w` running on
emulator-5554, `Manager.Run` for `w` reports the already-running error
and never reaches the launch path. -/
theorem c1_witness :
    (ManagerRun ⟨some [⟨str "emulator-5554", str "w", 5554, 3, true⟩], some [],
        fun _ => false, fun _ _ => false, none⟩ (str "w")).2 = false ∧
    (ManagerRun ⟨some [⟨str "emulator-5554", str "w", 5554, 3, true⟩], some [],
        fun _ => false, fun _ _ => false, none⟩ (str "w")).1 =
      RunRes.err (RunErr.alreadyRunning (str "w") (str "emulator-5554")) := by
  have h := c1_facade_run_gated_on_discovery
    ⟨some [⟨str "emulator-5554", str "w", 5554, 3, true⟩], some [],
      fun _ => false, fun _ _ => false, none⟩ (str "w") 0
    [⟨str "emulator-5554", str "w", 5554, 3, true⟩] rfl
  have hc := h.1 ⟨⟨str "emulator-5554", str "w", 5554, 3, true⟩, by simp, rfl⟩
  exact ⟨hc.1, by decide⟩

/-! ## C8 and C9: stopping -/

theorem digitVal_isSome_of_digitsVal {c : Char} {rest : Str} {n : Nat}
    (h : digitsVal (c :: rest) = some n) : (digitVal c).isSome := by
  cases rest with
  | nil =>
    unfold digitsVal at h
    cases hd : digitVal c with
    | none => rw [hd] at h; simp at h
    | some v => simp
  | cons d r =>
    unfold digitsVal at h
    cases hd : digitVal c with
    | none => rw [hd] at h; simp at h
    | some v => simp

theorem atoi?_of_digitsVal {ds : Str} {n : Nat} (h : digitsVal ds = some n) :
    atoi? ds = some (n : Int) := by
  cases ds with
  | nil => simp [digitsVal] at h
  | cons c rest =>
    have hc := digitVal_isSome_of_digitsVal h
    have hcm : c ≠ '-' := by
      rintro rfl
      rw [show digitVal '-' = none from by decide] at hc
      simp at hc
    have hcp : c ≠ '+' := by
      rintro rfl
      rw [show digitVal '+' = none from by decide] at hc
      simp at hc
    simp [atoi?, hcm, hcp, h]

/-- C8: stopping an emulator that is not running succeeds: for a
well-formed serial `emulator-<digits>`, when the post-kill process-table
scan finds no process on the parsed port, `StopBySerial` returns success
(so a second Stop right after a successful one also succeeds); and
`StopByName` returns success when the name is absent from the discovery
listing, performing no kill or signal action. -/
theorem c8_stop_idempotent (o : StopOracle) (ds : Str) (n : Nat)
    (procs : List ProcInfo) (name : Str)
    (hds : digitsVal ds = some n)
    (hscan : findEmulatorPID o.table1 (n : Int) = 0)
    (habsent : ∀ p ∈ procs, p.name ≠ name) :
    StopBySerial o (str "emulator-" ++ ds) =
      (none, [StopAct.consoleKill (str "emulator-" ++ ds)]) ∧
    StopByName o procs name = (none, []) := by
  constructor
  · have hpre : strHasPre (str "emulator-") (str "emulator-" ++ ds) = true :=
      strHasPre_append_self _ _
    have hdrop : (str "emulator-" ++ ds).drop (str "emulator-").length = ds :=
      List.drop_left _ _
    have hatoi : atoiOrZero ds = (n : Int) := by
      unfold atoiOrZero
      rw [atoi?_of_digitsVal hds]
      rfl
    unfold StopBySerial
    rw [if_neg (by simp [hpre])]
    simp only [hdrop, hatoi, hscan]
    simp
  · unfold StopByName
    rw [List.find?_eq_none.mpr (fun p hp => by simp [habsent p hp])]

/-- C8 witness: stopping emulator-5554 against empty process tables
succeeds with only the console kill attempted, and stopping the absent
name `foo` succeeds with no action. -/
theorem c8_witness :
    StopBySerial ⟨true, [], [], true⟩ (str "emulator-" ++ str "5554") =
      (none, [StopAct.consoleKill (str "emulator-" ++ str "5554")]) ∧
    StopByName ⟨true, [], [], true⟩ [] (str "foo") = (none, []) :=
  c8_stop_idempotent ⟨true, [], [], true⟩ (str "5554") 5554 [] (str "foo")
    (by decide) rfl (by simp)

/-- C9 counterexample: `emulator-xyz` does not match the
`emulator-<port>` pattern, yet `StopBySerial` neither returns a
precondition error nor refrains from acting: it performs the console
kill (the code checks only the `emulator-` prefix and falls back to port
0 when the suffix does not parse). -/
theorem c9_counterexample :
    matchesSerialPattern (str "emulator-xyz") = false ∧
    (StopBySerial stopOracleIdle (str "emulator-xyz")).1 = none ∧
    (StopBySerial stopOracleIdle (str "emulator-xyz")).2 =
      [StopAct.consoleKill (str "emulator-xyz")] := by
  refine ⟨by decide, by decide, by decide⟩

/-- C9 (amended): `StopBySerial` rejects exactly the serials that lack
the literal `emulator-` prefix, returning the invalid-format
precondition error and performing no kill or signal action; a serial
with the prefix but no parseable port proceeds with port 0. -/
theorem c9_stopBySerial_rejects_bad_serials (o : StopOracle) (serial : Str)
    (h : strHasPre (str "emulator-") serial = false) :
    StopBySerial o serial = (some StopErr.invalidSerial, []) := by
  unfold StopBySerial
  rw [if_pos (by simp [h])]

/-- C9 witness: the serial `foo` (no `emulator-` prefix) is rejected
with the invalid-format error and an empty action trace. -/
theorem c9_witness :
    StopBySerial stopOracleIdle (str "foo") = (some StopErr.invalidSerial, []) :=
  c9_stopBySerial_rejects_bad_serials stopOracleIdle (str "foo") (by decide)

/-! ## C10: RunOnPort port reassignment -/

theorem startEmulatorOnPort_launch_serial (free : Nat → Int → Bool) (p : Int) (s : Str)
    (h : (StartEmulatorOnPort free p).1 = StartOutcome.launch s) :
    s = str "emulator-" ++ intStr p := by
  unfold StartEmulatorOnPort at h
  split at h
  · simp at h
  · split at h
    · simp at h
    · rcases hpr : portRetry free p with ⟨ok, evs⟩
      rw [hpr] at h
      cases ok with
      | true =>
        simp at h
        exact h.symm
      | false => simp at h

/-- C10 counterexample: with the requested port occupied and only the
boundary port 5800 bindable, the first free even port in the claimed
inclusive range [5554, 5800] is 5800, yet `RunOnPort` fails with the
no-free-port error instead of starting there: the code's reassignment
scans the half-open range [5554, 5800). -/
theorem c10_counterexample :
    claimFirstFreeEvenIncl runWorldEdge.freeFind = some 5800 ∧
    ManagerRunOnPort runWorldEdge (str "x") 5554 = (RunRes.err RunErr.noFreePort, false) := by
  refine ⟨by decide, by decide⟩

/-- C10 (amended): when `RunOnPort` is called with a nonzero port, the
not-already-running check passes, and the second discovery listing shows
the requested port occupied, it does not fail with a collision error: it
silently reassigns to the first free even port of the half-open range
[5554, 5800) and delegates the start there, so a successfully returned
serial names the reassigned port. -/
theorem c10_runOnPort_reassigns (w : RunWorld) (name : Str) (port fp : Int)
    (procs procs2 : List ProcInfo)
    (hport : port ≠ 0)
    (h1 : w.list1 = some procs)
    (hname : ensureNotRunning name procs = none)
    (h2 : w.list2 = some procs2)
    (hocc : procs2.any (fun p => p.port == port) = true)
    (hfp : (FindFreeEvenPort w.freeFind 5554 5800).1 = some fp) :
    ManagerRunOnPort w name port =
      (match (StartEmulatorOnPort w.freeStart fp).1 with
       | StartOutcome.launch serial => (RunRes.ok serial, true)
       | StartOutcome.err e => (RunRes.err (RunErr.startErr e), false)) ∧
    (∀ serial, (StartEmulatorOnPort w.freeStart fp).1 = StartOutcome.launch serial →
      serial = str "emulator-" ++ intStr fp) ∧
    fp % 2 = 0 ∧ 5554 ≤ fp ∧ fp < 5800 ∧
    w.freeFind fp = true ∧ w.freeFind (fp + 1) = true ∧
    (∀ r, r % 2 = 0 → 5554 ≤ r → r < fp →
      ¬(w.freeFind r = true ∧ w.freeFind (r + 1) = true)) := by
  have hloop : (findFreeLoopAux w.freeFind 246 5554 5800).1 = some fp := by
    have heq : FindFreeEvenPort w.freeFind 5554 5800 =
        findFreeLoopAux w.freeFind 246 5554 5800 := rfl
    rw [heq] at hfp
    exact hfp
  have hchar := findFreeLoopAux_some w.freeFind 5800 246 5554 fp (by decide) hloop
  refine ⟨?_, fun serial hs => startEmulatorOnPort_launch_serial w.freeStart fp serial hs,
    by omega, hchar.1, hchar.2.1, hchar.2.2.1, hchar.2.2.2.1, ?_⟩
  · simp only [ManagerRunOnPort, if_neg hport, h1, hname, h2, hocc, if_true, hfp]
  · intro r hr1 hr2 hr3
    exact hchar.2.2.2.2.2 r hr2 hr3 (by omega)

/-- C10 witness: requested port 5554 is occupied; with bindable ports
from 5556 on, `RunOnPort` silently starts on 5556 and returns the serial
`emulator-5556`, a different port than requested. -/
theorem c10_witness :
    ManagerRunOnPort ⟨some [], some [⟨str "emulator-5554", str "other", 5554, 9, true⟩],
        fun p => decide (5556 ≤ p), fun _ _ => true, none⟩ (str "x") 5554 =
      (RunRes.ok (str "emulator-5556"), true) := by
  have h := c10_runOnPort_reassigns
    ⟨some [], some [⟨str "emulator-5554", str "other", 5554, 9, true⟩],
      fun p => decide (5556 ≤ p), fun _ _ => true, none⟩ (str "x") 5554 5556
    [] [⟨str "emulator-5554", str "other", 5554, 9, true⟩]
    (by decide) rfl (by decide) rfl (by decide) (by decide)
  rw [h.1]
  decide

/-! ## C3: ListRunning union and boot probing -/

theorem findEmulatorPID_pos_iff (tbl : List (Nat × Str)) (port : Int)
    (hpid : ∀ e ∈ tbl, 0 < e.1) :
    0 < findEmulatorPID tbl port ↔
      ∃ e ∈ tbl, (strContains (portArgPat port) e.2 && tokenMatch e.2) = true := by
  induction tbl with
  | nil => simp [findEmulatorPID]
  | cons e rest ih =>
    rcases e with ⟨pid, cl⟩
    have hpid0 : 0 < pid := hpid (pid, cl) (List.mem_cons_self _ _)
    have hrest : ∀ e ∈ rest, 0 < e.1 := fun e he => hpid e (List.mem_cons_of_mem _ he)
    simp only [findEmulatorPID]
    split
    · rename_i hcond
      constructor
      · intro _
        exact ⟨(pid, cl), List.mem_cons_self _ _, hcond⟩
      · intro _
        exact hpid0
    · rename_i hcond
      rw [ih hrest]
      constructor
      · rintro ⟨e, he, hcnd⟩
        exact ⟨e, List.mem_cons_of_mem _ he, hcnd⟩
      · rintro ⟨e, he, hcnd⟩
        rcases List.mem_cons.mp he with rfl | he'
        · exact absurd hcnd hcond
        · exact ⟨e, he', hcnd⟩

theorem devicesTuples_spec (o : DiscoveryOracle) :
    ∀ p ∈ devicesTuples o,
      strHasPre (str "emulator-") p.serial = true ∧
      p.booted = (trimSpace (o.getpropOut p.serial) == str "1") := by
  intro p hp
  obtain ⟨line, _, hline⟩ := List.mem_filterMap.mp hp
  simp only [deviceLineTuple] at hline
  split at hline
  · split at hline
    · rename_i hpre
      split at hline
      · simp at hline
      · simp only [Option.some.injEq] at hline
        subst hline
        exact ⟨hpre, rfl⟩
    · simp at hline
  · simp at hline

theorem scanTuple_spec (o : DiscoveryOracle) (seen : List Int) (q : Int) (p : ProcInfo)
    (h : scanTuple o seen q = some p) :
    q ∉ seen ∧ 0 < findEmulatorPID o.procTable q ∧
    p.pid = findEmulatorPID o.procTable q ∧
    p.serial = str "emulator-" ++ intStr q ∧ p.port = q ∧
    p.booted = (o.getpropOk p.serial && (trimSpace (o.getpropOut p.serial) == str "1")) := by
  simp only [scanTuple] at h
  split at h
  · simp at h
  · rename_i hseen
    split at h
    · rename_i hpos
      simp only [Option.some.injEq] at h
      subst h
      exact ⟨hseen, hpos, rfl, rfl, rfl, rfl⟩
    · simp at h

theorem mem_scanPorts_iff (q : Int) :
    q ∈ scanPorts ↔ q % 2 = 0 ∧ 5554 ≤ q ∧ q ≤ 5800 := by
  constructor
  · intro hq
    obtain ⟨i, hi, hqi⟩ := List.mem_map.mp hq
    have hi' := List.mem_range.mp hi
    subst hqi
    omega
  · rintro ⟨h1, h2, h3⟩
    obtain ⟨m, hm⟩ := Int.even_iff.mpr h1
    exact List.mem_map.mpr ⟨(m - 2777).toNat, List.mem_range.mpr (by omega), by omega⟩

/-- C3 counterexample: against a world where `adb devices` reports
nothing, one qemu process serves port 5554, and the boot-property probe
fails (nonzero exit) while printing `1`, `ListRunning` reports the
synthesized tuple as not booted even though the property read is exactly
`"1"` after trimming — refuting the claimed unconditional iff. -/
theorem c3_counterexample :
    ¬ ∀ p ∈ ListRunning discOracleA,
        p.booted = (trimSpace (discOracleA.getpropOut p.serial) == str "1") := by
  decide

/-- C3 (amended): `ListRunning` is the union of the two strategies: the
tuples harvested from `adb devices` lines (first token prefixed
`emulator-`, parseable nonzero port) followed by, for each even port in
[5554, 5800] not seen by the first strategy, a synthesized tuple exactly
when some process's command line contains the NUL-separated `-port
<port>` pair and one of the tokens `qemu-system`/`emulator`. A
devices-strategy tuple is booted iff the trimmed boot-property output is
`"1"` (exit status ignored); a scan-strategy tuple is booted iff the
probe also exited cleanly. -/
theorem c3_listRunning_union (o : DiscoveryOracle) (hpid : ∀ e ∈ o.procTable, 0 < e.1) :
    ListRunning o = devicesTuples o ++
      scanPorts.filterMap (scanTuple o ((devicesTuples o).map (fun p => p.port))) ∧
    (∀ p ∈ devicesTuples o,
      strHasPre (str "emulator-") p.serial = true ∧
      p.booted = (trimSpace (o.getpropOut p.serial) == str "1")) ∧
    (∀ p ∈ ListRunning o, p ∉ devicesTuples o →
      ∃ q, q % 2 = 0 ∧ 5554 ≤ q ∧ q ≤ 5800 ∧
        q ∉ (devicesTuples o).map (fun p => p.port) ∧
        p.port = q ∧ p.serial = str "emulator-" ++ intStr q ∧
        (∃ e ∈ o.procTable, (strContains (portArgPat q) e.2 && tokenMatch e.2) = true) ∧
        p.booted = (o.getpropOk p.serial && (trimSpace (o.getpropOut p.serial) == str "1"))) := by
  refine ⟨rfl, devicesTuples_spec o, ?_⟩
  intro p hp hnd
  rcases List.mem_append.mp hp with hd | hs
  · exact absurd hd hnd
  · obtain ⟨q, hq, hsome⟩ := List.mem_filterMap.mp hs
    obtain ⟨hr1, hr2, hr3⟩ := mem_scanPorts_iff q |>.mp hq
    obtain ⟨hseen, hpos, _, hserial, hport, hboot⟩ :=
      scanTuple_spec o ((devicesTuples o).map (fun p => p.port)) q p hsome
    refine ⟨q, hr1, hr2, hr3, hseen, hport, hserial, ?_, hboot⟩
    exact (findEmulatorPID_pos_iff o.procTable q hpid).mp hpos

/-- C3 witness: the amended characterization applied to the concrete
scan scenario, whose listing is exactly the synthesized 5554 tuple. -/
theorem c3_witness :
    ListRunning discOracleA = devicesTuples discOracleA ++
      scanPorts.filterMap (scanTuple discOracleA
        ((devicesTuples discOracleA).map (fun p => p.port))) :=
  (c3_listRunning_union discOracleA (by decide)).1

end Avdctl
